import Mathlib

/-!
Shallow embedding of `pycasinosim/casino/equipment/card.py`: the `Rank`,
`Face`, `Card`, `CardShuffle`, `Deck` and `Shoe` types and their operations,
with theorems checking the specification's claims about them.

Modelling conventions:
* `uuid4()` tokens are modelled as natural numbers handed out by a counter
  (`base`, `base + 1`, ...): the spec assumes the token generator cannot
  collide within a shoe's lifetime, and distinct counter values realise that.
* `secrets.choice(range(0, n))` is modelled by an arbitrary stream
  `σ : Nat → Nat` of raw draws, reduced modulo the current pool size; every
  run of the real generator corresponds to some `σ` and conversely.
* Python exceptions become explicit error values: the constructor's
  `ValueError` becomes `ShoeError.invalidArgument`, and the two distinct
  `BadCardError` raises in `replace_overdrawn_card` become
  `ShoeError.unknownCard` and `ShoeError.alreadyInShoe`.  `TypeError` guards
  on argument types are unrepresentable in the typed embedding.
* Mutating methods become state-passing functions returning the new state;
  a raising method returns the error together with the state it left behind.
-/

/-- Rank enum: card ranks from Ace through King (`Rank` in card.py). -/
inductive Rank where
  | ACE | TWO | THREE | FOUR | FIVE | SIX | SEVEN
  | EIGHT | NINE | TEN | JACK | QUEEN | KING
deriving DecidableEq, Repr

/-- The members of `Rank` in declaration order (`list(Rank)`). -/
def Rank.members : List Rank :=
  [.ACE, .TWO, .THREE, .FOUR, .FIVE, .SIX, .SEVEN,
   .EIGHT, .NINE, .TEN, .JACK, .QUEEN, .KING]

/-- Face enum: the four card faces (`Face` in card.py). -/
inductive Face where
  | CLUB | DIAMOND | HEART | SPADE
deriving DecidableEq, Repr

/-- The members of `Face` in declaration order (`list(Face)`). -/
def Face.members : List Face := [.CLUB, .DIAMOND, .HEART, .SPADE]

/-- `Card`: frozen dataclass with a rank, a face, and a process-unique
uuid token (modelled as a `Nat`). -/
structure Card where
  rank : Rank
  face : Face
  uuid : Nat
deriving DecidableEq, Repr

/-- `CardShuffle` enum: the three types of shuffle. -/
inductive CardShuffle where
  | DECK | SHOE | DECK_AND_SHOE
deriving DecidableEq, Repr

/-- The shuffle loop of `Deck._shuffle_cards` / `Shoe._shuffle_cards`:
while the pool is non-empty, pick index `σ k % pool.length` (modelling
`secrets.choice(range(0, remaining))`), pop it from the pool and append it
to the output.  `fuel` bounds the recursion; callers pass the pool length. -/
def shuffleLoop (σ : Nat → Nat) : Nat → Nat → List Card → List Card
  | 0, _, _ => []
  | _ + 1, _, [] => []
  | fuel + 1, k, c :: cs =>
      let pool := c :: cs
      let i := σ k % pool.length
      pool.get ⟨i, Nat.mod_lt _ (Nat.succ_pos _)⟩ ::
        shuffleLoop σ fuel (k + 1) (pool.eraseIdx i)

/-- Run the shuffle loop over a whole pool (fuel = pool size). -/
def shuffleCardsList (σ : Nat → Nat) (cs : List Card) : List Card :=
  shuffleLoop σ cs.length 0 cs

/-- `Deck`: the shuffle mode it was built with, its remaining cards
(`_cards`), and the `_shuffled` idempotence flag. -/
structure Deck where
  shuffle : Option CardShuffle
  cards : List Card
  shuffled : Bool
deriving DecidableEq, Repr

/-- The 52 fresh cards of `Deck.__init__`:
`[Card(card[1], card[0]) for card in product(list(Face), list(Rank))]`,
each assigned the next uuid from the counter starting at `base`. -/
def freshDeckCards (base : Nat) : List Card :=
  ((Face.members.flatMap fun f => Rank.members.map fun r => (r, f)).zip
      (List.range 52)).map fun p => ⟨p.1.1, p.1.2, base + p.2⟩

/-- Whether `Deck._shuffle_cards` is requested:
`self.shuffle == CardShuffle.DECK or self.shuffle == CardShuffle.DECK_AND_SHOE`. -/
def deckShuffleRequested : Option CardShuffle → Bool
  | some CardShuffle.DECK => true
  | some CardShuffle.DECK_AND_SHOE => true
  | _ => false

/-- `Deck._shuffle_cards`: if not yet shuffled and the mode requests a
deck-level shuffle, replace the cards by the shuffle loop's output and set
the flag; otherwise do nothing. -/
def Deck.shuffleCards (d : Deck) (σ : Nat → Nat) : Deck :=
  if !d.shuffled && deckShuffleRequested d.shuffle then
    { d with cards := shuffleCardsList σ d.cards, shuffled := true }
  else d

/-- `Deck.__init__`: build the 52 fresh cards, set `_shuffled = False`,
then call `_shuffle_cards`.  `base` is the uuid counter, `σ` the random
stream. -/
def Deck.init (card_shuffle : Option CardShuffle) (base : Nat)
    (σ : Nat → Nat) : Deck :=
  Deck.shuffleCards ⟨card_shuffle, freshDeckCards base, false⟩ σ

/-- `Deck.can_draw_card`: `len(self._cards) > 0`. -/
def Deck.canDrawCard (d : Deck) : Bool := d.cards.length > 0

/-- `Deck.cards_remaining`: `len(self._cards)`. -/
def Deck.cardsRemaining (d : Deck) : Nat := d.cards.length

/-- `Deck.draw_card`: pop the front card if any, else `None`. -/
def Deck.drawCard (d : Deck) : Option Card × Deck :=
  match d.cards with
  | [] => (none, d)
  | c :: cs => (some c, { d with cards := cs })

/-- Draining a deck by repeated `draw_card` (the `__iter__`/`__next__`
protocol), with fuel bounding the number of draws. -/
def Deck.drainAux : Nat → Deck → List Card
  | 0, _ => []
  | fuel + 1, d =>
      match d.drawCard with
      | (none, _) => []
      | (some c, d') => c :: Deck.drainAux fuel d'

/-- `for c in d`: draw until `StopIteration`. -/
def Deck.drain (d : Deck) : List Card := Deck.drainAux d.cardsRemaining d

/-- The error values of the Shoe API: the constructor's `ValueError`
(spec: `InvalidArgument`) and the two `BadCardError` raises of
`replace_overdrawn_card` (spec: `UnknownCard`, `AlreadyInShoe`). -/
inductive ShoeError where
  | invalidArgument | unknownCard | alreadyInShoe
deriving DecidableEq, Repr

/-- `Shoe`: shuffle mode, deck count, `_cards`, `_overdrawn_cards`,
`_card_uuids`, and the `_shoe_populated` / `_shuffled` flags. -/
structure Shoe where
  shuffle : Option CardShuffle
  decks : Int
  cards : List Card
  overdrawnCards : List Card
  cardUuids : List Nat
  shoePopulated : Bool
  shuffled : Bool
deriving DecidableEq, Repr

/-- Whether `Shoe._shuffle_cards` is requested:
`self.shuffle == CardShuffle.SHOE or self.shuffle == CardShuffle.DECK_AND_SHOE`. -/
def shoeShuffleRequested : Option CardShuffle → Bool
  | some CardShuffle.SHOE => true
  | some CardShuffle.DECK_AND_SHOE => true
  | _ => false

/-- `Shoe._shuffle_cards`: if not yet shuffled and the mode requests a
shoe-level shuffle, replace `_cards` by the shuffle loop's output and set
the flag.  (Its only invocation, from `__init__`, runs with an empty
overdrawn queue, so the loop drains exactly `_cards`.) -/
def Shoe.shuffleCards (s : Shoe) (σ : Nat → Nat) : Shoe :=
  if !s.shuffled && shoeShuffleRequested s.shuffle then
    { s with cards := shuffleCardsList σ s.cards, shuffled := true }
  else s

/-- `Shoe._populate_shoe`: for each of the `decks` deck indices, construct
a `Deck` with the shoe's shuffle mode and drain it, appending each card to
`_cards` and its uuid to `_card_uuids`.  Deck `i` draws its uuids from the
counter at `base + 52 * i` and its randomness from `σd i`. -/
def Shoe.populate (s : Shoe) (base : Nat) (σd : Nat → Nat → Nat) : Shoe :=
  if s.shoePopulated then s
  else
    let drained := (List.range s.decks.toNat).flatMap fun i =>
      (Deck.init s.shuffle (base + 52 * i) (σd i)).drain
    { s with cards := s.cards ++ drained,
             cardUuids := s.cardUuids ++ drained.map Card.uuid,
             shoePopulated := true }

/-- `Shoe.__init__`: validate `decks ≥ 1` (else `ValueError`, spec
`InvalidArgument`), then populate from `decks` fresh decks and apply the
shoe-level shuffle pass.  `base` seeds the uuid counter, `σd` supplies each
deck's randomness, `σs` the shoe-level shuffle's randomness. -/
def Shoe.init (decks : Int) (card_shuffle : Option CardShuffle) (base : Nat)
    (σd : Nat → Nat → Nat) (σs : Nat → Nat) : Except ShoeError Shoe :=
  if decks < 1 then .error .invalidArgument
  else
    let s0 : Shoe := { shuffle := card_shuffle, decks := decks, cards := [],
                       overdrawnCards := [], cardUuids := [],
                       shoePopulated := false, shuffled := false }
    .ok ((s0.populate base σd).shuffleCards σs)

/-- `Shoe._is_card_in_shoe`: the uuid of the given card occurs in `_cards`
or in `_overdrawn_cards`. -/
def Shoe.isCardInShoe (s : Shoe) (card : Card) : Bool :=
  s.cards.any (fun c => c.uuid == card.uuid) ||
    s.overdrawnCards.any (fun c => c.uuid == card.uuid)

/-- `Shoe.replace_overdrawn_card`: raise `BadCardError` (`unknownCard`) if
the card's uuid is not in `_card_uuids`; raise `BadCardError`
(`alreadyInShoe`) if `_is_card_in_shoe`; otherwise append the card to
`_overdrawn_cards`.  The returned shoe is the state after the call: on a
raise it is unchanged, since both raises precede the append. -/
def Shoe.replaceOverdrawnCard (s : Shoe) (card : Card) :
    Except ShoeError Unit × Shoe :=
  if ¬ card.uuid ∈ s.cardUuids then (.error .unknownCard, s)
  else if s.isCardInShoe card then (.error .alreadyInShoe, s)
  else (.ok (), { s with overdrawnCards := s.overdrawnCards ++ [card] })

/-- `Shoe._use_overdrawn_card`: `len(self._overdrawn_cards) > 0`. -/
def Shoe.useOverdrawnCard (s : Shoe) : Bool := s.overdrawnCards.length > 0

/-- `Shoe._draw_overdrawn_card`: pop the front of `_overdrawn_cards` if
any, else `None`. -/
def Shoe.drawOverdrawnCard (s : Shoe) : Option Card × Shoe :=
  match s.overdrawnCards with
  | [] => (none, s)
  | c :: cs => (some c, { s with overdrawnCards := cs })

/-- `Shoe.draw_card`: if there are overdrawn cards, draw from them first;
otherwise pop the front of `_cards` if any, else `None`. -/
def Shoe.drawCard (s : Shoe) : Option Card × Shoe :=
  if s.useOverdrawnCard then s.drawOverdrawnCard
  else
    match s.cards with
    | [] => (none, s)
    | c :: cs => (some c, { s with cards := cs })

/-- `Shoe.can_draw_card`: cards remain in `_cards` or `_overdrawn_cards`. -/
def Shoe.canDrawCard (s : Shoe) : Bool :=
  s.cards.length > 0 || s.overdrawnCards.length > 0

/-- `Shoe.cards_remaining`: `len(self._cards) + len(self._overdrawn_cards)`. -/
def Shoe.cardsRemaining (s : Shoe) : Nat :=
  s.cards.length + s.overdrawnCards.length

/-- `Shoe.deck_count`: the number of decks the shoe was constructed with. -/
def Shoe.deckCount (s : Shoe) : Int := s.decks

/-! ### Helper lemmas: the shuffle loop permutes, draining yields the list -/

/-- Removing the element at index `i` and re-consing it in front is a
permutation of the original list. -/
theorem cons_get_eraseIdx_perm (l : List Card) (i : Nat) (h : i < l.length) :
    (l.get ⟨i, h⟩ :: l.eraseIdx i).Perm l := by
  induction l generalizing i with
  | nil => cases h
  | cons a t ih =>
    cases i with
    | zero => simp
    | succ j =>
      have hj : j < t.length := Nat.lt_of_succ_lt_succ h
      have step := (ih j hj).cons a
      exact (List.Perm.swap a (t.get ⟨j, hj⟩) (t.eraseIdx j)).trans step

/-- The shuffle loop outputs a permutation of its pool whenever the fuel
covers the pool size. -/
theorem shuffleLoop_perm (σ : Nat → Nat) (fuel : Nat) :
    ∀ (k : Nat) (l : List Card), l.length ≤ fuel →
      (shuffleLoop σ fuel k l).Perm l := by
  induction fuel with
  | zero =>
    intro k l hl
    have : l = [] := List.eq_nil_of_length_eq_zero (Nat.le_zero.mp hl)
    subst this; simp [shuffleLoop]
  | succ fuel ih =>
    intro k l hl
    match l with
    | [] => simp [shuffleLoop]
    | c :: cs =>
      simp only [shuffleLoop]
      set pool := c :: cs with hpool
      set i := σ k % pool.length with hi
      have hilt : i < pool.length := Nat.mod_lt _ (Nat.succ_pos _)
      have herase : (pool.eraseIdx i).length ≤ fuel := by
        have := List.length_eraseIdx_add_one hilt
        omega
      have tail := ih (k + 1) (pool.eraseIdx i) herase
      exact (tail.cons _).trans (cons_get_eraseIdx_perm pool i hilt)

/-- `shuffleCardsList` is a permutation of its input. -/
theorem shuffleCardsList_perm (σ : Nat → Nat) (l : List Card) :
    (shuffleCardsList σ l).Perm l :=
  shuffleLoop_perm σ l.length 0 l (Nat.le_refl _)

/-- A deck's post-shuffle cards are a permutation of its pre-shuffle cards. -/
theorem Deck.shuffleCards_cards_perm (d : Deck) (σ : Nat → Nat) :
    (d.shuffleCards σ).cards.Perm d.cards := by
  unfold Deck.shuffleCards
  split
  · exact shuffleCardsList_perm σ d.cards
  · exact List.Perm.refl _

/-- A shoe's post-shuffle cards are a permutation of its pre-shuffle cards,
and the shuffle touches no other collection. -/
theorem Shoe.shuffleCards_fields (s : Shoe) (σ : Nat → Nat) :
    (s.shuffleCards σ).cards.Perm s.cards ∧
    (s.shuffleCards σ).overdrawnCards = s.overdrawnCards ∧
    (s.shuffleCards σ).cardUuids = s.cardUuids ∧
    (s.shuffleCards σ).decks = s.decks ∧
    (s.shuffleCards σ).shuffle = s.shuffle := by
  unfold Shoe.shuffleCards
  split
  · exact ⟨shuffleCardsList_perm σ s.cards, rfl, rfl, rfl, rfl⟩
  · exact ⟨List.Perm.refl _, rfl, rfl, rfl, rfl⟩

/-- With enough fuel, repeated drawing returns exactly the cards list. -/
theorem Deck.drainAux_eq (fuel : Nat) :
    ∀ d : Deck, d.cards.length ≤ fuel → Deck.drainAux fuel d = d.cards := by
  induction fuel with
  | zero =>
    intro d hd
    have : d.cards = [] := List.eq_nil_of_length_eq_zero (Nat.le_zero.mp hd)
    simp [Deck.drainAux, this]
  | succ fuel ih =>
    intro d hd
    match hc : d.cards with
    | [] => simp [Deck.drainAux, Deck.drawCard, hc]
    | c :: cs =>
      have : cs.length ≤ fuel := by
        have := congrArg List.length hc
        simp at this; omega
      simp [Deck.drainAux, Deck.drawCard, hc, ih { d with cards := cs } this]

/-- Iterating a deck yields its cards list in order. -/
theorem Deck.drain_eq (d : Deck) : d.drain = d.cards :=
  Deck.drainAux_eq d.cards.length d (Nat.le_refl _)

/-- A freshly constructed deck's cards are a permutation of the canonical
52 fresh cards. -/
theorem Deck.init_cards_perm (sh : Option CardShuffle) (base : Nat)
    (σ : Nat → Nat) : (Deck.init sh base σ).cards.Perm (freshDeckCards base) :=
  Deck.shuffleCards_cards_perm ⟨sh, freshDeckCards base, false⟩ σ

/-- The uuids of the canonical fresh deck are `base, base+1, …, base+51`. -/
theorem freshDeckCards_uuid_map (base : Nat) :
    (freshDeckCards base).map Card.uuid = (List.range 52).map (base + ·) := rfl

/-- The (rank, face) pairs of the canonical fresh deck, in construction
order: face-major, rank-minor. -/
theorem freshDeckCards_pairs (base : Nat) :
    (freshDeckCards base).map (fun c => (c.rank, c.face)) =
      Face.members.flatMap fun f => Rank.members.map fun r => (r, f) := rfl

/-- The canonical fresh deck has 52 cards. -/
theorem freshDeckCards_length (base : Nat) : (freshDeckCards base).length = 52 := rfl

/-! ### Helper lemmas: the initial shoe and its uuid uniqueness -/

/-- The card sequence a freshly populated shoe holds: each deck drained in
construction order. -/
def initialShoeCards (sh : Option CardShuffle) (base : Nat)
    (σd : Nat → Nat → Nat) (n : Nat) : List Card :=
  (List.range n).flatMap fun i => (Deck.init sh (base + 52 * i) (σd i)).cards

/-- Characterisation of a successful `Shoe.__init__`: it requires
`decks ≥ 1`, leaves the overdrawn queue empty, records every drained uuid,
and holds a permutation of the drained deck cards. -/
theorem Shoe.init_ok_char (n : Int) (sh : Option CardShuffle) (base : Nat)
    (σd : Nat → Nat → Nat) (σs : Nat → Nat) (s : Shoe)
    (h : Shoe.init n sh base σd σs = .ok s) :
    1 ≤ n ∧
    s.cards.Perm (initialShoeCards sh base σd n.toNat) ∧
    s.overdrawnCards = [] ∧
    s.cardUuids = (initialShoeCards sh base σd n.toNat).map Card.uuid ∧
    s.decks = n ∧ s.shuffle = sh := by
  unfold Shoe.init at h
  split at h
  · cases h
  · next hn =>
    injection h with h
    subst h
    have hpop : (Shoe.populate
        { shuffle := sh, decks := n, cards := [], overdrawnCards := [],
          cardUuids := [], shoePopulated := false, shuffled := false } base σd) =
        { shuffle := sh, decks := n,
          cards := initialShoeCards sh base σd n.toNat,
          overdrawnCards := [],
          cardUuids := (initialShoeCards sh base σd n.toNat).map Card.uuid,
          shoePopulated := true, shuffled := false } := by
      simp [Shoe.populate, initialShoeCards, Deck.drain_eq]
    rw [hpop]
    obtain ⟨hc, ho, hu, hd, hs⟩ := Shoe.shuffleCards_fields
      { shuffle := sh, decks := n,
        cards := initialShoeCards sh base σd n.toNat,
        overdrawnCards := [],
        cardUuids := (initialShoeCards sh base σd n.toNat).map Card.uuid,
        shoePopulated := true, shuffled := false } σs
    exact ⟨by omega, hc, ho, hu, hd, hs⟩

/-- Pointwise permutations lift through `flatMap`. -/
theorem flatMap_perm_of_forall_perm {α β : Type} (l : List α)
    (f g : α → List β) (h : ∀ i ∈ l, (f i).Perm (g i)) :
    (l.flatMap f).Perm (l.flatMap g) := by
  induction l with
  | nil => simp
  | cons a t ih =>
    simp only [List.flatMap_cons]
    exact (h a (by simp)).append (ih fun i hi => h i (by simp [hi]))

/-- The uuid blocks `[base + 52i, base + 52i + 51]` for `i < n` are
pairwise-disjoint and individually duplicate-free. -/
theorem blocks_nodup (base n : Nat) :
    ((List.range n).flatMap fun i =>
      (List.range 52).map fun j => base + 52 * i + j).Nodup := by
  induction n with
  | zero => simp
  | succ n ih =>
    rw [List.range_succ, List.flatMap_append]
    refine List.Nodup.append ih ?_ ?_
    · simp only [List.flatMap_cons, List.flatMap_nil, List.append_nil]
      refine List.Nodup.map ?_ (List.nodup_range 52)
      intro a b hab
      dsimp at hab
      omega
    · intro u hu hu'
      simp only [List.mem_flatMap, List.mem_map, List.mem_range,
        List.flatMap_cons, List.flatMap_nil, List.append_nil] at hu hu'
      obtain ⟨i, hi, j, hj, rfl⟩ := hu
      obtain ⟨j', hj', hj'eq⟩ := hu'
      omega

/-- The uuids a fresh shoe records are pairwise distinct. -/
theorem initialShoeCards_uuids_nodup (sh : Option CardShuffle) (base : Nat)
    (σd : Nat → Nat → Nat) (n : Nat) :
    ((initialShoeCards sh base σd n).map Card.uuid).Nodup := by
  have hperm : ((initialShoeCards sh base σd n).map Card.uuid).Perm
      ((List.range n).flatMap fun i =>
        (List.range 52).map fun j => base + 52 * i + j) := by
    unfold initialShoeCards
    rw [List.map_flatMap]
    refine flatMap_perm_of_forall_perm _ _ _ ?_
    intro i _
    have h1 := (Deck.init_cards_perm sh (base + 52 * i) (σd i)).map Card.uuid
    rw [freshDeckCards_uuid_map] at h1
    exact h1.trans (List.Perm.refl _)
  exact hperm.nodup_iff.mpr (blocks_nodup base n)

/-! ### The shoe's uuid invariant and reachability -/

/-- All card uuids currently held by the shoe: the draw sequence's followed
by the overdrawn queue's. -/
def Shoe.uuidList (s : Shoe) : List Nat :=
  s.cards.map Card.uuid ++ s.overdrawnCards.map Card.uuid

/-- The at-most-one-location invariant: no uuid occurs twice across
`_cards` and `_overdrawn_cards` (in particular no uuid occurs in both, and
none is duplicated within either). -/
def Shoe.UuidInv (s : Shoe) : Prop := s.uuidList.Nodup

/-- Every uuid currently in the shoe is recorded in `_card_uuids`. -/
def Shoe.UuidClosed (s : Shoe) : Prop := ∀ u ∈ s.uuidList, u ∈ s.cardUuids

/-- Shoes reachable from a successful construction by any sequence of
`draw_card` and `replace_overdrawn_card` calls (failed replacements leave
the state as it was, so they are covered too). -/
inductive Shoe.Reachable : Shoe → Prop where
  | init (n : Int) (sh : Option CardShuffle) (base : Nat)
      (σd : Nat → Nat → Nat) (σs : Nat → Nat) (s : Shoe) :
      Shoe.init n sh base σd σs = Except.ok s → Shoe.Reachable s
  | draw (s : Shoe) : Shoe.Reachable s → Shoe.Reachable (s.drawCard).2
  | replace (s : Shoe) (c : Card) : Shoe.Reachable s →
      Shoe.Reachable (s.replaceOverdrawnCard c).2

/-- `draw_card` does exactly one of three things: nothing on an exhausted
shoe, pop the front of the overdrawn queue, or pop the front of `_cards`. -/
theorem Shoe.drawCard_cases (s : Shoe) :
    (s.overdrawnCards = [] ∧ s.cards = [] ∧ s.drawCard = (none, s)) ∨
    (∃ c cs, s.overdrawnCards = c :: cs ∧
      s.drawCard = (some c, { s with overdrawnCards := cs })) ∨
    (∃ c cs, s.overdrawnCards = [] ∧ s.cards = c :: cs ∧
      s.drawCard = (some c, { s with cards := cs })) := by
  cases ho : s.overdrawnCards with
  | cons c cs =>
    refine Or.inr (Or.inl ⟨c, cs, rfl, ?_⟩)
    simp [Shoe.drawCard, Shoe.useOverdrawnCard, Shoe.drawOverdrawnCard, ho]
  | nil =>
    cases hc : s.cards with
    | nil =>
      refine Or.inl ⟨rfl, rfl, ?_⟩
      simp [Shoe.drawCard, Shoe.useOverdrawnCard, ho, hc]
    | cons c cs =>
      refine Or.inr (Or.inr ⟨c, cs, rfl, rfl, ?_⟩)
      simp [Shoe.drawCard, Shoe.useOverdrawnCard, ho, hc]

/-- Every reachable shoe satisfies the uuid invariant and records every
held uuid among its known uuids. -/
theorem Shoe.reachable_uuid_props (s : Shoe) (h : Shoe.Reachable s) :
    s.UuidInv ∧ s.UuidClosed := by
  induction h with
  | init n sh base σd σs s hinit =>
    obtain ⟨_, hcperm, ho, hu, _, _⟩ := Shoe.init_ok_char n sh base σd σs s hinit
    have hmperm := hcperm.map Card.uuid
    constructor
    · unfold Shoe.UuidInv Shoe.uuidList
      rw [ho]
      simp only [List.map_nil, List.append_nil]
      exact hmperm.nodup_iff.mpr (initialShoeCards_uuids_nodup sh base σd n.toNat)
    · intro u humem
      unfold Shoe.uuidList at humem
      rw [ho] at humem
      simp only [List.map_nil, List.append_nil] at humem
      rw [hu]
      exact hmperm.mem_iff.mp humem
  | draw s _ ih =>
    obtain ⟨hinv, hclosed⟩ := ih
    rcases Shoe.drawCard_cases s with ⟨_, _, hdc⟩ | ⟨c, cs, ho, hdc⟩ |
        ⟨c, cs, ho, hc, hdc⟩
    · rw [hdc]; exact ⟨hinv, hclosed⟩
    · rw [hdc]
      have hsub : ({ s with overdrawnCards := cs } : Shoe).uuidList.Sublist
          s.uuidList := by
        unfold Shoe.uuidList
        simp only [ho]
        exact List.Sublist.append_left
          ((List.sublist_cons_self c.uuid (cs.map Card.uuid)).trans
            (by simp)) _
      exact ⟨hsub.nodup hinv, fun u hu => hclosed u (hsub.subset hu)⟩
    · rw [hdc]
      have hsub : ({ s with cards := cs } : Shoe).uuidList.Sublist
          s.uuidList := by
        unfold Shoe.uuidList
        simp only [hc]
        exact List.Sublist.append_right
          ((List.sublist_cons_self c.uuid (cs.map Card.uuid)).trans
            (by simp)) _
      exact ⟨hsub.nodup hinv, fun u hu => hclosed u (hsub.subset hu)⟩
  | replace s c _ ih =>
    obtain ⟨hinv, hclosed⟩ := ih
    unfold Shoe.replaceOverdrawnCard
    split
    · exact ⟨hinv, hclosed⟩
    · split
      · exact ⟨hinv, hclosed⟩
      · next hknown hnotin =>
        rw [not_not] at hknown
        have hnotin' : (c.uuid ∈ s.cards.map Card.uuid ∨
            c.uuid ∈ s.overdrawnCards.map Card.uuid) → False := by
          intro hmem
          apply hnotin
          unfold Shoe.isCardInShoe
          rcases hmem with hm | hm <;>
          · obtain ⟨x, hx, hxu⟩ := List.mem_map.mp hm
            simp only [Bool.or_eq_true, List.any_eq_true]
            first
            | exact Or.inl ⟨x, hx, by simp [hxu]⟩
            | exact Or.inr ⟨x, hx, by simp [hxu]⟩
        have hperm : ({ s with overdrawnCards := s.overdrawnCards ++ [c] } :
            Shoe).uuidList.Perm (c.uuid :: s.uuidList) := by
          unfold Shoe.uuidList
          simp only [List.map_append, List.map_cons, List.map_nil]
          rw [← List.append_assoc]
          exact List.perm_append_singleton _ _
        constructor
        · refine hperm.nodup_iff.mpr (List.nodup_cons.mpr ⟨?_, hinv⟩)
          intro hmem
          exact hnotin' (List.mem_append.mp hmem)
        · intro u hu
          have := hperm.mem_iff.mp hu
          rcases List.mem_cons.mp this with rfl | hu'
          · exact hknown
          · exact hclosed u hu'

/-! ### Concrete fixtures used by the witnesses -/

/-- A concrete single-deck, unshuffled shoe, as produced by
`Shoe(1)` with the uuid counter starting at 0. -/
def testShoe : Shoe :=
  { shuffle := none, decks := 1, cards := freshDeckCards 0,
    overdrawnCards := [], cardUuids := (freshDeckCards 0).map Card.uuid,
    shoePopulated := true, shuffled := false }

/-- `testShoe` is what `Shoe.init` actually returns. -/
theorem testShoe_init :
    Shoe.init 1 none 0 (fun _ _ => 0) (fun _ => 0) = .ok testShoe := rfl

/-- The first card dealt from `testShoe`: the ace of clubs, uuid 0. -/
def drawnCard : Card := ⟨Rank.ACE, Face.CLUB, 0⟩

/-- `testShoe` after one draw. -/
def drawnShoe : Shoe := (testShoe.drawCard).2

/-- `drawnShoe` after successfully returning the drawn card. -/
def replacedShoe : Shoe := (drawnShoe.replaceOverdrawnCard drawnCard).2

/-! ### The claims -/

/-- C1: for every shoe and card, `replace_overdrawn_card` validates in
order: a uuid outside the known ids fails with `UnknownCard`; otherwise a
uuid currently present in the cards sequence or overdrawn queue fails with
`AlreadyInShoe`; otherwise it succeeds and appends the card to the back of
the overdrawn queue. -/
theorem replaceOverdrawnCard_validation_order (s : Shoe) (card : Card) :
    (card.uuid ∉ s.cardUuids →
      s.replaceOverdrawnCard card = (.error .unknownCard, s)) ∧
    (card.uuid ∈ s.cardUuids → s.isCardInShoe card = true →
      s.replaceOverdrawnCard card = (.error .alreadyInShoe, s)) ∧
    (card.uuid ∈ s.cardUuids → s.isCardInShoe card = false →
      s.replaceOverdrawnCard card =
        (.ok (), { s with overdrawnCards := s.overdrawnCards ++ [card] })) := by
  refine ⟨fun h1 => ?_, fun h1 h2 => ?_, fun h1 h2 => ?_⟩
  · simp [Shoe.replaceOverdrawnCard, h1]
  · simp [Shoe.replaceOverdrawnCard, h1, h2]
  · simp [Shoe.replaceOverdrawnCard, h1, h2]

/-- Witness for C1: in the single-deck shoe, an alien uuid is rejected as
unknown, a still-present uuid as already in the shoe, and the card just
drawn is accepted and enqueued. -/
theorem replaceOverdrawnCard_validation_order_witness :
    testShoe.replaceOverdrawnCard ⟨Rank.ACE, Face.CLUB, 99⟩ =
      (.error .unknownCard, testShoe) ∧
    testShoe.replaceOverdrawnCard ⟨Rank.ACE, Face.CLUB, 0⟩ =
      (.error .alreadyInShoe, testShoe) ∧
    drawnShoe.replaceOverdrawnCard drawnCard =
      (.ok (), { drawnShoe with
        overdrawnCards := drawnShoe.overdrawnCards ++ [drawnCard] }) :=
  ⟨(replaceOverdrawnCard_validation_order testShoe ⟨Rank.ACE, Face.CLUB, 99⟩).1
      (by decide),
   (replaceOverdrawnCard_validation_order testShoe ⟨Rank.ACE, Face.CLUB, 0⟩).2.1
      (by decide) (by decide),
   (replaceOverdrawnCard_validation_order drawnShoe drawnCard).2.2
      (by decide) (by decide)⟩

/-- C2: for every shoe, `draw_card` returns and removes the front of the
overdrawn queue (FIFO) whenever it is non-empty, in preference to the
cards sequence; otherwise the front of the cards sequence; otherwise the
defined no-card result `none` with the shoe unchanged. -/
theorem drawCard_priority (s : Shoe) :
    (∀ c cs, s.overdrawnCards = c :: cs →
      s.drawCard = (some c, { s with overdrawnCards := cs })) ∧
    (∀ c cs, s.overdrawnCards = [] → s.cards = c :: cs →
      s.drawCard = (some c, { s with cards := cs })) ∧
    (s.overdrawnCards = [] → s.cards = [] → s.drawCard = (none, s)) := by
  refine ⟨fun c cs ho => ?_, fun c cs ho hc => ?_, fun ho hc => ?_⟩
  · simp [Shoe.drawCard, Shoe.useOverdrawnCard, Shoe.drawOverdrawnCard, ho]
  · simp [Shoe.drawCard, Shoe.useOverdrawnCard, ho, hc]
  · simp [Shoe.drawCard, Shoe.useOverdrawnCard, ho, hc]

/-- Witness for C2: the shoe holding one overdrawn card deals it first;
the fresh shoe deals the front of its cards; the emptied shoe reports no
card. -/
theorem drawCard_priority_witness :
    replacedShoe.drawCard =
      (some drawnCard, { replacedShoe with overdrawnCards := [] }) ∧
    testShoe.drawCard = (some drawnCard, { testShoe with
      cards := (freshDeckCards 0).tail }) ∧
    ({ testShoe with cards := [] } : Shoe).drawCard =
      (none, { testShoe with cards := [] }) :=
  ⟨(drawCard_priority replacedShoe).1 drawnCard [] (by rfl),
   (drawCard_priority testShoe).2.1 drawnCard (freshDeckCards 0).tail
      (by rfl) (by rfl),
   (drawCard_priority { testShoe with cards := [] }).2.2 (by rfl) (by rfl)⟩

/-- C3: every shoe reachable from construction by any sequence of
`draw_card` and `replace_overdrawn_card` calls has pairwise-distinct card
uuids across the cards sequence and the overdrawn queue: no uuid in both,
none duplicated within either. -/
theorem reachable_shoe_uuid_nodup (s : Shoe) (h : Shoe.Reachable s) :
    (s.cards.map Card.uuid ++ s.overdrawnCards.map Card.uuid).Nodup :=
  (Shoe.reachable_uuid_props s h).1

/-- Witness for C3: the invariant holds for the concrete shoe obtained by
constructing, drawing once, and returning the drawn card. -/
theorem reachable_shoe_uuid_nodup_witness :
    (replacedShoe.cards.map Card.uuid ++
      replacedShoe.overdrawnCards.map Card.uuid).Nodup :=
  reachable_shoe_uuid_nodup replacedShoe
    (Shoe.Reachable.replace drawnShoe drawnCard
      (Shoe.Reachable.draw testShoe
        (Shoe.Reachable.init 1 none 0 (fun _ _ => 0) (fun _ => 0) testShoe
          testShoe_init)))

/-- C4: whenever `replace_overdrawn_card` fails, the shoe's cards
sequence, overdrawn queue and known-uuid list are exactly as before the
call; in fact the whole state is unchanged. -/
theorem replaceOverdrawnCard_failure_no_mutation (s : Shoe) (card : Card)
    (e : ShoeError) (h : (s.replaceOverdrawnCard card).1 = .error e) :
    (s.replaceOverdrawnCard card).2 = s ∧
    (s.replaceOverdrawnCard card).2.cards = s.cards ∧
    (s.replaceOverdrawnCard card).2.overdrawnCards = s.overdrawnCards ∧
    (s.replaceOverdrawnCard card).2.cardUuids = s.cardUuids := by
  by_cases h1 : card.uuid ∈ s.cardUuids
  · by_cases h2 : s.isCardInShoe card = true
    · simp [Shoe.replaceOverdrawnCard, h1, h2]
    · exfalso
      simp [Shoe.replaceOverdrawnCard, h1, h2] at h
  · simp [Shoe.replaceOverdrawnCard, h1]

/-- Witness for C4: the failing unknown-uuid replacement leaves the
concrete shoe untouched. -/
theorem replaceOverdrawnCard_failure_no_mutation_witness :
    (testShoe.replaceOverdrawnCard ⟨Rank.ACE, Face.CLUB, 99⟩).2 = testShoe ∧
    (testShoe.replaceOverdrawnCard ⟨Rank.ACE, Face.CLUB, 99⟩).2.cards =
      testShoe.cards ∧
    (testShoe.replaceOverdrawnCard ⟨Rank.ACE, Face.CLUB, 99⟩).2.overdrawnCards =
      testShoe.overdrawnCards ∧
    (testShoe.replaceOverdrawnCard ⟨Rank.ACE, Face.CLUB, 99⟩).2.cardUuids =
      testShoe.cardUuids :=
  replaceOverdrawnCard_failure_no_mutation testShoe ⟨Rank.ACE, Face.CLUB, 99⟩
    ShoeError.unknownCard (by rfl)

/-- C5: every constructed deck (any shuffle mode, any randomness) has 52
cards remaining, and draining it via repeated `draw_card` until `None`
yields exactly the 52 distinct (rank, face) pairs with no pair repeated. -/
theorem deck_construction_complete (sh : Option CardShuffle) (base : Nat)
    (σ : Nat → Nat) :
    (Deck.init sh base σ).cardsRemaining = 52 ∧
    ((Deck.init sh base σ).drain.map fun c => (c.rank, c.face)).Perm
      (Face.members.flatMap fun f => Rank.members.map fun r => (r, f)) ∧
    ((Deck.init sh base σ).drain.map fun c => (c.rank, c.face)).Nodup := by
  have hperm := Deck.init_cards_perm sh base σ
  have hlen : (Deck.init sh base σ).cards.length = 52 := by
    rw [hperm.length_eq, freshDeckCards_length]
  have hdrain := Deck.drain_eq (Deck.init sh base σ)
  have hpairs : ((Deck.init sh base σ).cards.map fun c =>
      (c.rank, c.face)).Perm
      (Face.members.flatMap fun f => Rank.members.map fun r => (r, f)) := by
    have hm := hperm.map (fun c => (c.rank, c.face))
    rwa [freshDeckCards_pairs] at hm
  refine ⟨hlen, ?_, ?_⟩
  · rw [hdrain]; exact hpairs
  · rw [hdrain]
    exact hpairs.nodup_iff.mpr (by decide)

/-- A freshly populated shoe holds `52 * n` cards. -/
theorem initialShoeCards_length (sh : Option CardShuffle) (base : Nat)
    (σd : Nat → Nat → Nat) (n : Nat) :
    (initialShoeCards sh base σd n).length = 52 * n := by
  induction n with
  | zero => simp [initialShoeCards]
  | succ n ih =>
    unfold initialShoeCards at ih ⊢
    rw [List.range_succ, List.flatMap_append, List.length_append, ih,
      List.flatMap_cons]
    simp [(Deck.init_cards_perm sh (base + 52 * n) (σd n)).length_eq,
      freshDeckCards_length]
    omega

/-- C6: a successfully constructed shoe with `deck_count = n` has
`52 * n` cards remaining, and for every shoe the remaining count is the
length of the cards sequence plus the length of the overdrawn queue. -/
theorem shoe_cards_remaining_spec (n : Int) (sh : Option CardShuffle)
    (base : Nat) (σd : Nat → Nat → Nat) (σs : Nat → Nat) (s : Shoe)
    (h : Shoe.init n sh base σd σs = .ok s) :
    s.cardsRemaining = 52 * n.toNat ∧
    ∀ t : Shoe, t.cardsRemaining =
      t.cards.length + t.overdrawnCards.length := by
  obtain ⟨_, hc, ho, _, _, _⟩ := Shoe.init_ok_char n sh base σd σs s h
  refine ⟨?_, fun t => rfl⟩
  unfold Shoe.cardsRemaining
  rw [ho, hc.length_eq, initialShoeCards_length]
  simp

/-- Witness for C6: the one-deck shoe holds 52 cards. -/
theorem shoe_cards_remaining_spec_witness :
    testShoe.cardsRemaining = 52 * (1 : Int).toNat ∧
    ∀ t : Shoe, t.cardsRemaining =
      t.cards.length + t.overdrawnCards.length :=
  shoe_cards_remaining_spec 1 none 0 (fun _ _ => 0) (fun _ => 0) testShoe
    testShoe_init

/-- C7: construction with `decks < 1` fails with `InvalidArgument`
(`ValueError` in the source) and produces no shoe; with `decks ≥ 1` it
never fails on that ground and yields a shoe. -/
theorem shoe_init_validation (n : Int) (sh : Option CardShuffle) (base : Nat)
    (σd : Nat → Nat → Nat) (σs : Nat → Nat) :
    (n < 1 → Shoe.init n sh base σd σs = .error .invalidArgument) ∧
    (1 ≤ n → ∃ s, Shoe.init n sh base σd σs = .ok s) := by
  constructor
  · intro h
    simp [Shoe.init, h]
  · intro h
    have h' : ¬ n < 1 := by omega
    exact ⟨_, by unfold Shoe.init; rw [if_neg h']⟩

/-- Witness for C7: `Shoe(0)` and `Shoe(-1)` are rejected, `Shoe(1)` is
accepted. -/
theorem shoe_init_validation_witness :
    Shoe.init 0 none 0 (fun _ _ => 0) (fun _ => 0) =
      .error .invalidArgument ∧
    Shoe.init (-1) none 0 (fun _ _ => 0) (fun _ => 0) =
      .error .invalidArgument ∧
    ∃ s, Shoe.init 1 none 0 (fun _ _ => 0) (fun _ => 0) = .ok s :=
  ⟨(shoe_init_validation 0 none 0 (fun _ _ => 0) (fun _ => 0)).1 (by decide),
   (shoe_init_validation (-1) none 0 (fun _ _ => 0) (fun _ => 0)).1
      (by decide),
   (shoe_init_validation 1 none 0 (fun _ _ => 0) (fun _ => 0)).2 (by decide)⟩

/-- A second call to `Deck._shuffle_cards`, with any randomness, changes
nothing after a first call. -/
theorem deck_shuffle_twice_noop (d : Deck) (σ σ' : Nat → Nat) :
    (d.shuffleCards σ).shuffleCards σ' = d.shuffleCards σ := by
  unfold Deck.shuffleCards
  by_cases h : (!d.shuffled && deckShuffleRequested d.shuffle) = true
  · simp [h]
  · simp [h]

/-- A second call to `Shoe._shuffle_cards`, with any randomness, changes
nothing after a first call. -/
theorem shoe_shuffle_twice_noop (s : Shoe) (σ σ' : Nat → Nat) :
    (s.shuffleCards σ).shuffleCards σ' = s.shuffleCards σ := by
  unfold Shoe.shuffleCards
  by_cases h : (!s.shuffled && shoeShuffleRequested s.shuffle) = true
  · simp [h]
  · simp [h]

/-- C8: invoking the shuffle-triggering operation again after construction
leaves the card order of any deck and of any constructed shoe unchanged;
the guard is the tracked shuffled flag (any deck or shoe whose flag is set
is left untouched regardless of the randomness supplied). -/
theorem shuffle_idempotent (sh : Option CardShuffle) (base : Nat)
    (σ σ' : Nat → Nat) (n : Int) (σd : Nat → Nat → Nat) (σs : Nat → Nat)
    (s : Shoe) :
    (Deck.init sh base σ).shuffleCards σ' = Deck.init sh base σ ∧
    (Shoe.init n sh base σd σs = .ok s → s.shuffleCards σ' = s) ∧
    (∀ d : Deck, d.shuffled = true → d.shuffleCards σ' = d) ∧
    (∀ t : Shoe, t.shuffled = true → t.shuffleCards σ' = t) := by
  refine ⟨?_, ?_, ?_, ?_⟩
  · exact deck_shuffle_twice_noop ⟨sh, freshDeckCards base, false⟩ σ σ'
  · intro h
    unfold Shoe.init at h
    split at h
    · cases h
    · injection h with h
      subst h
      exact shoe_shuffle_twice_noop _ σs σ'
  · intro d hd
    unfold Deck.shuffleCards
    simp [hd]
  · intro t ht
    unfold Shoe.shuffleCards
    simp [ht]

/-- Witness for C8: re-shuffling the concrete shuffled deck, the
constructed shoe, and flag-set values is a no-op. -/
theorem shuffle_idempotent_witness :
    (Deck.init (some CardShuffle.DECK) 0 (fun _ => 0)).shuffleCards
      (fun _ => 1) = Deck.init (some CardShuffle.DECK) 0 (fun _ => 0) ∧
    testShoe.shuffleCards (fun _ => 1) = testShoe ∧
    (⟨some CardShuffle.DECK, [], true⟩ : Deck).shuffleCards (fun _ => 1) =
      ⟨some CardShuffle.DECK, [], true⟩ ∧
    ({ testShoe with shuffled := true } : Shoe).shuffleCards (fun _ => 1) =
      { testShoe with shuffled := true } :=
  ⟨(shuffle_idempotent (some CardShuffle.DECK) 0 (fun _ => 0) (fun _ => 1) 1
      (fun _ _ => 0) (fun _ => 0) testShoe).1,
   (shuffle_idempotent none 0 (fun _ => 0) (fun _ => 1) 1 (fun _ _ => 0)
      (fun _ => 0) testShoe).2.1 testShoe_init,
   (shuffle_idempotent none 0 (fun _ => 0) (fun _ => 1) 1 (fun _ _ => 0)
      (fun _ => 0) testShoe).2.2.1 ⟨some CardShuffle.DECK, [], true⟩ rfl,
   (shuffle_idempotent none 0 (fun _ => 0) (fun _ => 1) 1 (fun _ _ => 0)
      (fun _ => 0) testShoe).2.2.2 { testShoe with shuffled := true } rfl⟩

/-- C9: replacement validation inspects only the uuid: cards with equal
uuids get identical validation outcomes, and any card whose uuid is known
and not currently present is accepted and enqueued whatever its rank and
face. -/
theorem replace_validates_by_uuid_only (s : Shoe) (c₁ c₂ : Card)
    (h : c₁.uuid = c₂.uuid) :
    (s.replaceOverdrawnCard c₁).1 = (s.replaceOverdrawnCard c₂).1 ∧
    (∀ r f, c₁.uuid ∈ s.cardUuids → s.isCardInShoe c₁ = false →
      s.replaceOverdrawnCard ⟨r, f, c₁.uuid⟩ =
        (.ok (), { s with
          overdrawnCards := s.overdrawnCards ++ [⟨r, f, c₁.uuid⟩] })) := by
  have hin : s.isCardInShoe c₁ = s.isCardInShoe c₂ := by
    simp [Shoe.isCardInShoe, h]
  constructor
  · by_cases h1 : c₂.uuid ∈ s.cardUuids
    · by_cases h2 : s.isCardInShoe c₂ = true
      · simp [Shoe.replaceOverdrawnCard, h, hin, h1, h2]
      · simp [Shoe.replaceOverdrawnCard, h, hin, h1, h2]
    · simp [Shoe.replaceOverdrawnCard, h, hin, h1]
  · intro r f h1 h2
    have hin2 : s.isCardInShoe ⟨r, f, c₁.uuid⟩ = false := by
      have heq : s.isCardInShoe ⟨r, f, c₁.uuid⟩ = s.isCardInShoe c₁ := rfl
      rw [heq, h2]
    simp [Shoe.replaceOverdrawnCard, h1, hin2]

/-- Witness for C9: a card with the drawn card's uuid but a different rank
and face is accepted by the concrete shoe. -/
theorem replace_validates_by_uuid_only_witness :
    drawnShoe.replaceOverdrawnCard ⟨Rank.KING, Face.SPADE, 0⟩ =
      (.ok (), { drawnShoe with overdrawnCards :=
        drawnShoe.overdrawnCards ++ [⟨Rank.KING, Face.SPADE, 0⟩] }) :=
  (replace_validates_by_uuid_only drawnShoe drawnCard drawnCard rfl).2
    Rank.KING Face.SPADE (by decide) (by rfl)

/-- C10: the known-uuid list, deck count and shuffle mode are left
unchanged by every `draw_card` and `replace_overdrawn_card` call
(successful or failing); and on a reachable shoe, the card just drawn from
the overdrawn queue can immediately be replaced again. -/
theorem shoe_fixed_fields_frame (s : Shoe) (card : Card) :
    ((s.drawCard).2.cardUuids = s.cardUuids ∧
     (s.drawCard).2.decks = s.decks ∧
     (s.drawCard).2.shuffle = s.shuffle) ∧
    ((s.replaceOverdrawnCard card).2.cardUuids = s.cardUuids ∧
     (s.replaceOverdrawnCard card).2.decks = s.decks ∧
     (s.replaceOverdrawnCard card).2.shuffle = s.shuffle) ∧
    (Shoe.Reachable s → ∀ rest, s.overdrawnCards = card :: rest →
      ((s.drawCard).2.replaceOverdrawnCard card).1 = .ok ()) := by
  refine ⟨?_, ?_, ?_⟩
  · rcases Shoe.drawCard_cases s with ⟨_, _, hdc⟩ | ⟨c, cs, _, hdc⟩ |
        ⟨c, cs, _, _, hdc⟩ <;> rw [hdc] <;> exact ⟨rfl, rfl, rfl⟩
  · unfold Shoe.replaceOverdrawnCard
    split
    · exact ⟨rfl, rfl, rfl⟩
    · split
      · exact ⟨rfl, rfl, rfl⟩
      · exact ⟨rfl, rfl, rfl⟩
  · intro hreach rest ho
    obtain ⟨hinv, hclosed⟩ := Shoe.reachable_uuid_props s hreach
    rcases Shoe.drawCard_cases s with ⟨ho', _, _⟩ | ⟨c, cs, ho', hdc⟩ |
        ⟨c, cs, ho', _, _⟩
    · rw [ho] at ho'; cases ho'
    · rw [ho] at ho'
      injection ho' with h1 h2
      subst h1; subst h2
      rw [hdc]
      have hknown : card.uuid ∈ s.cardUuids := by
        apply hclosed
        unfold Shoe.uuidList
        refine List.mem_append.mpr (Or.inr ?_)
        simp [ho]
      have hinv' : (s.cards.map Card.uuid ++
          (card.uuid :: rest.map Card.uuid)).Nodup := by
        have := hinv
        unfold Shoe.UuidInv Shoe.uuidList at this
        rwa [ho, List.map_cons] at this
      obtain ⟨hA, hcons, hdisj⟩ := List.nodup_append.mp hinv'
      have hnotR : card.uuid ∉ rest.map Card.uuid :=
        (List.nodup_cons.mp hcons).1
      have hnotA : card.uuid ∉ s.cards.map Card.uuid := fun hu =>
        hdisj hu (List.mem_cons_self _ _)
      have hnotin : ({ s with overdrawnCards := rest } : Shoe).isCardInShoe
          card = false := by
        unfold Shoe.isCardInShoe
        simp only [Bool.or_eq_false_iff, List.any_eq_false]
        constructor
        · intro x hx hbeq
          exact hnotA (List.mem_map.mpr ⟨x, hx, by simpa using hbeq⟩)
        · intro x hx hbeq
          exact hnotR (List.mem_map.mpr ⟨x, hx, by simpa using hbeq⟩)
      simp [Shoe.replaceOverdrawnCard, hknown, hnotin]
    · rw [ho] at ho'; cases ho'

/-- Witness for C10: in the concrete shoe whose overdrawn queue holds the
returned card, drawing it again and replacing it again succeeds. -/
theorem shoe_fixed_fields_frame_witness :
    ((replacedShoe.drawCard).2.replaceOverdrawnCard drawnCard).1 =
      Except.ok () :=
  (shoe_fixed_fields_frame replacedShoe drawnCard).2.2
    (Shoe.Reachable.replace drawnShoe drawnCard
      (Shoe.Reachable.draw testShoe
        (Shoe.Reachable.init 1 none 0 (fun _ _ => 0) (fun _ => 0) testShoe
          testShoe_init)))
    [] (by rfl)
